import Mathlib

/-!
Verification of the go-discid TOC / disc-ID library.

The Go package is a binding over the native libdiscid library: the Go side
contains the text parsing (`Parse`), the offset-array assembly (`Put`), and
the track accessor's range check, while the native side performs the final
TOC validation and computes the MusicBrainz / FreeDB identifiers and the
canonical TOC string.  The Go code is embedded here directly from the
source; the native functions, whose code is not part of the repository, are
modelled from the specification (each such definition carries a
`Modelled from the spec:` comment).

Go `string` values are embedded as `List Char` at token level (`String` at
the API boundary) and Go panics as explicit error values distinct from
returned errors.  Go `int` is 64-bit: values are embedded as `Int`, every
source operation that can overflow 64 bits goes through `wrap64`, every
`C.int(...)` conversion through the 32-bit `cint`, and `strconv.Atoi`
carries its range-error path.  The remaining integer operations
(`offsetCount`, `trackCount`, slice bounds) act on values already confined
to ranges where 64-bit overflow is impossible, as noted at their
definitions.
-/

namespace discid

/-- Go `strings.Split(s, " ")`: split on every single space character.
`splitSpace [] = [[]]`, matching Go's `Split("", " ") = [""]`. -/
def splitSpace : List Char → List (List Char)
  | [] => [[]]
  | c :: rest =>
    if c = ' ' then [] :: splitSpace rest
    else
      match splitSpace rest with
      | t :: ts => (c :: t) :: ts
      | [] => [[c]]

/-- Join parts with single spaces (inverse direction of `splitSpace`). -/
def joinSpace : List (List Char) → List Char
  | [] => []
  | [p] => p
  | p :: ps => p ++ ' ' :: joinSpace ps

/-- Decimal digit to character. -/
def dchar : Nat → Char
  | 0 => '0'
  | 1 => '1'
  | 2 => '2'
  | 3 => '3'
  | 4 => '4'
  | 5 => '5'
  | 6 => '6'
  | 7 => '7'
  | 8 => '8'
  | 9 => '9'
  | _ => '?'

/-- Little-endian base-10 digit list, by structural (fuel) recursion so
that concrete renderings reduce in the kernel; `digitsGo n n` agrees with
`Nat.digits 10 n`. -/
def digitsGo : Nat → Nat → List Nat
  | 0, _ => []
  | fuel + 1, n => if n = 0 then [] else n % 10 :: digitsGo fuel (n / 10)

/-- Canonical decimal rendering of a natural number: no sign, no leading
zeros (big-endian decimal digits). -/
def natRender (n : Nat) : List Char :=
  if n = 0 then ['0'] else ((digitsGo n n).reverse).map dchar

/-- Rendering of a Go `int` (C `%d`): minus sign for negatives. -/
def intRender (i : Int) : List Char :=
  if i < 0 then '-' :: natRender (-i).toNat else natRender i.toNat

/-- Parse a nonempty all-digit token as a natural number. -/
def parseDigits (cs : List Char) : Option Nat :=
  if cs = [] then none
  else if cs.all Char.isDigit then
    some (cs.foldl (fun a c => a * 10 + (c.toNat - 48)) 0)
  else none

/-- Two's complement wrap of Go `int` (64-bit) arithmetic, applied
wherever a Go integer operation in the source can overflow. -/
def wrap64 (n : Int) : Int :=
  (n + 9223372036854775808) % 18446744073709551616 - 9223372036854775808

/-- The Go conversion `C.int(n)`: two's complement truncation to the
32-bit C int. -/
def cint (n : Int) : Int := (n + 2147483648) % 4294967296 - 2147483648

/-- The error outcomes of the Go functions.  `malformedNumber` and
`numberOutOfRange` are `strconv.Atoi`'s syntax and range errors, the next
three are the error values `Parse` builds itself resp. the message
libdiscid reports for an invalid track range, and the last two model Go
runtime panics (which are distinct from returned errors). -/
inductive GoErr where
  | malformedNumber (tok : String)
  | numberOutOfRange (tok : String)
  | tooManyOffsets
  | invalidTocString (toc : String)
  | offsetCountMismatch (offsetCount trackCount : Int)
  | illegalTrackLimits
  | indexOutOfRange
  | sliceBounds
  deriving DecidableEq, Repr

/-- The unbounded numeral syntax accepted by `strconv.Atoi`: an optional
single sign, then a nonempty run of decimal digits. -/
def atoiNum (cs : List Char) : Option Int :=
  match cs with
  | [] => none
  | c :: rest =>
    if c = '-' then (parseDigits rest).map (fun n => -(n : Int))
    else if c = '+' then (parseDigits rest).map (fun n => (n : Int))
    else (parseDigits (c :: rest)).map (fun n => (n : Int))

/-- Go `strconv.Atoi` on a 64-bit platform: a syntax error for anything
but an optionally signed digit run, a range error for a numeral outside
the 64-bit int range, the value otherwise. -/
def atoi (cs : List Char) : Except GoErr Int :=
  match atoiNum cs with
  | none => .error (.malformedNumber ⟨cs⟩)
  | some v =>
    if v < -9223372036854775808 ∨ v > 9223372036854775807 then
      .error (.numberOutOfRange ⟨cs⟩)
    else .ok v

/-- `atoi` over a whole token list; `some` exactly when every token
parses without a syntax or range error. -/
def atoiAll : List (List Char) → Option (List Int)
  | [] => some []
  | t :: ts =>
    match atoi t, atoiAll ts with
    | .ok v, some vs => some (v :: vs)
    | _, _ => none

/-- The validated TOC held by a libdiscid handle: first/last track numbers
and the 100-slot offset array (slot 0 is the leadout, slot `t` the start
sector of track `t`, unused slots zero). -/
structure Toc where
  firstTrack : Int
  lastTrack : Int
  offsets : List Int
  deriving DecidableEq, Repr

instance {ε α : Type} [DecidableEq ε] [DecidableEq α] : DecidableEq (Except ε α) := fun a b =>
  match a, b with
  | .error e1, .error e2 =>
    if h : e1 = e2 then .isTrue (by rw [h]) else .isFalse (by intro hc; cases hc; exact h rfl)
  | .ok v1, .ok v2 =>
    if h : v1 = v2 then .isTrue (by rw [h]) else .isFalse (by intro hc; cases hc; exact h rfl)
  | .error _, .ok _ => .isFalse (by intro hc; cases hc)
  | .ok _, .error _ => .isFalse (by intro hc; cases hc)

/-- Slot `i` of an offset array (C array read; arrays here always have
length 100 and validated indices stay in range). -/
def arrGet (l : List Int) (i : Nat) : Int := l.getD i 0

/-- Write consecutive values into a list starting at position `p`
(helper describing the loops that fill a 100-slot array). -/
def writeSeq (l : List Int) (p : Nat) : List Int → List Int
  | [] => l
  | v :: vs => writeSeq (l.set p v) (p + 1) vs

/-- Modelled from the spec: libdiscid `discid_put` final validation
(§4.1 direct assembly).  It fails with the "Illegal track limits" error
when the number of tracks `last - first + 1` exceeds 99 or when the last
track number `first + numTracks - 1` exceeds 99, and otherwise stores the
validated TOC. -/
def discidPut (first last : Int) (c : List Int) : Except GoErr Toc :=
  if last - first + 1 > 99 ∨ last > 99 then .error .illegalTrackLimits
  else .ok ⟨first, last, c⟩

/-- The copy loop of Go `Put`: `for i, n := range offsets[1:] { track := i +
first; if track > 99 { break }; c_offsets[track] = C.int(n) }`.  The index
`i + first` is Go 64-bit int arithmetic (wrapping), the stored value goes
through the `C.int` conversion, and a negative index is a Go runtime
panic. -/
def fillOffsets (first : Int) (i : Nat) (vals : List Int) (c : List Int) :
    Except GoErr (List Int) :=
  match vals with
  | [] => .ok c
  | n :: rest =>
    if wrap64 (i + first) > 99 then .ok c
    else if wrap64 (i + first) < 0 then .error .indexOutOfRange
    else fillOffsets first (i + 1) rest (c.set (wrap64 (i + first)).toNat (cint n))

/-- Go `discid.Put(first, offsets)`: `last := first + len(offsets) - 2`
(64-bit int arithmetic), `c_offsets[0] = C.int(offsets[0])` (a panic when
`offsets` is empty), the copy loop, then the native
`discid_put(handle, C.int(first), C.int(last), &c_offsets[0])`. -/
def Put (first : Int) (offsets : List Int) : Except GoErr Toc :=
  match offsets with
  | [] => .error .indexOutOfRange
  | leadout :: rest =>
    let last : Int := wrap64 (first + offsets.length - 2)
    match fillOffsets first 0 rest ((List.replicate 100 0).set 0 (cint leadout)) with
    | .error e => .error e
    | .ok c => discidPut (cint first) (cint last) c

/-- The mutable state of `Parse`'s token loop: `first`, `last` and the
100-slot `offsets` array. -/
structure PState where
  first : Int
  last : Int
  offsets : List Int
  deriving DecidableEq, Repr

/-- The token loop of Go `Parse`: token `i = 0` sets `first`, token `1`
sets `last`, and each later token is bounds-checked against `last + 2`
(Go 64-bit int addition, which wraps when `last` is near the top of the
range `strconv.Atoi` admits) and `99 + 2` before being stored at
`offsets[i-2]`. -/
def parseTokens (i : Nat) (ts : List (List Char)) (st : PState) : Except GoErr PState :=
  match ts with
  | [] => .ok st
  | t :: rest =>
    match atoi t with
    | .error e => .error e
    | .ok v =>
      if i = 0 then parseTokens (i + 1) rest { st with first := v }
      else if i = 1 then parseTokens (i + 1) rest { st with last := v }
      else if (i : Int) > wrap64 (st.last + 2) ∨ (i : Int) > 99 + 2 then
        .error .tooManyOffsets
      else parseTokens (i + 1) rest { st with offsets := st.offsets.set (i - 2) v }

/-- Go slice expression `l[0:high]`: a runtime panic unless
`0 ≤ high ≤ len(l)`. -/
def goSlice (l : List Int) (high : Int) : Except GoErr (List Int) :=
  if high < 0 ∨ (l.length : Int) < high then .error .sliceBounds
  else .ok (l.take high.toNat)

/-- The tail of Go `Parse` after its token loop: `n` is the token count
(Go's `i` is `n - 1`, the index of the last token): check `i < 2 || first
< 1 || last < 1 || last > 99`, compare the collected offset count with the
implied track count, and delegate to `Put` on the slice
`offsets[0:trackCount+1]`.  The guard bounds `first` and `last`
(`1 ≤ first ≤ 2^63-1` from `Atoi`, `1 ≤ last ≤ 99`), so
`last - first + 1` and `trackCount + 1` stay within 64-bit int range and
no `wrap64` is needed here. -/
def parseFin (toc : String) (n : Nat) (st : PState) : Except GoErr Toc :=
  let i : Nat := n - 1
  if i < 2 ∨ st.first < 1 ∨ st.last < 1 ∨ st.last > 99 then
    .error (.invalidTocString toc)
  else
    let offsetCount : Int := (i : Int) - 2
    let trackCount : Int := st.last - st.first + 1
    if offsetCount < trackCount then
      .error (.offsetCountMismatch offsetCount trackCount)
    else
      match goSlice st.offsets (trackCount + 1) with
      | .error e => .error e
      | .ok sl => Put st.first sl

/-- Go `discid.Parse(toc)`: split on single spaces, run the token loop,
then the final checks and the delegation to `Put` (`parseFin`). -/
def Parse (toc : String) : Except GoErr Toc :=
  let tokens := splitSpace toc.data
  match parseTokens 0 tokens ⟨0, 0, List.replicate 100 0⟩ with
  | .error e => .error e
  | .ok st => parseFin toc tokens.length st

/-- The per-track offsets of a validated TOC, in track order (slots
`firstTrack .. lastTrack` of the offset array). -/
def tocTrackOffsets (t : Toc) : List Int :=
  (t.offsets.drop t.firstTrack.toNat).take (t.lastTrack.toNat + 1 - t.firstTrack.toNat)

/-- Modelled from the spec: libdiscid `discid_get_toc_string` (§4.1
canonical rendering): `first last leadout offset_1 … offset_n`, decimal,
single-space separated. -/
def TocString (t : Toc) : String :=
  ⟨joinSpace (intRender t.firstTrack :: intRender t.lastTrack ::
    intRender (arrGet t.offsets 0) :: (tocTrackOffsets t).map intRender)⟩

/-- Uppercase hexadecimal digit. -/
def hexCharU : Nat → Char
  | 0 => '0'
  | 1 => '1'
  | 2 => '2'
  | 3 => '3'
  | 4 => '4'
  | 5 => '5'
  | 6 => '6'
  | 7 => '7'
  | 8 => '8'
  | 9 => '9'
  | 10 => 'A'
  | 11 => 'B'
  | 12 => 'C'
  | 13 => 'D'
  | 14 => 'E'
  | 15 => 'F'
  | _ => '?'

/-- Lowercase hexadecimal digit. -/
def hexCharL : Nat → Char
  | 10 => 'a'
  | 11 => 'b'
  | 12 => 'c'
  | 13 => 'd'
  | 14 => 'e'
  | 15 => 'f'
  | d => hexCharU d

/-- Big-endian hex digits of `n` prepended to `acc` (fuel-driven; `fuel = n`
always suffices since the digit count of `n` is at most `n`). -/
def hexGo (dig : Nat → Char) : Nat → Nat → List Char → List Char
  | 0, _, acc => acc
  | _, 0, acc => acc
  | fuel + 1, n, acc => hexGo dig fuel (n / 16) (dig (n % 16) :: acc)

/-- Big-endian hex digits of `n` prepended to `acc`. -/
def hexRec (dig : Nat → Char) (n : Nat) (acc : List Char) : List Char :=
  hexGo dig n n acc

/-- C `sprintf("%0*X")`: uppercase hex, zero-padded to width `w` (wider if
the value needs more digits). -/
def hexU (w n : Nat) : List Char :=
  let d := if n = 0 then ['0'] else hexRec hexCharU n []
  List.replicate (w - d.length) '0' ++ d

/-- C `sprintf("%08x")`: lowercase hex, zero-padded to width 8. -/
def hexL8 (n : Nat) : List Char :=
  let d := if n = 0 then ['0'] else hexRec hexCharL n []
  List.replicate (8 - d.length) '0' ++ d

/-- Truncate to 32 bits. -/
def w32 (n : Nat) : Nat := n % 4294967296

/-- 32-bit left rotation (argument below `2^32`). -/
def rotl (n x : Nat) : Nat := w32 (x <<< n ||| x >>> (32 - n))

/-- SHA-1 round function. -/
def sha1F (i b c d : Nat) : Nat :=
  if i < 20 then (b &&& c) ||| ((b ^^^ 4294967295) &&& d)
  else if i < 40 then b ^^^ c ^^^ d
  else if i < 60 then (b &&& c) ||| (b &&& d) ||| (c &&& d)
  else b ^^^ c ^^^ d

/-- SHA-1 round constants. -/
def sha1K (i : Nat) : Nat :=
  if i < 20 then 0x5A827999
  else if i < 40 then 0x6ED9EBA1
  else if i < 60 then 0x8F1BBCDC
  else 0xCA62C1D6

/-- Big-endian 32-bit words from a byte list. -/
def bytesToWords : List Nat → List Nat
  | a :: b :: c :: d :: rest =>
    (a * 16777216 + b * 65536 + c * 256 + d) :: bytesToWords rest
  | _ => []

/-- Message-schedule extension: prepend `count` further words to the
reversed word list `acc`. -/
def sha1ExtendAux : Nat → List Nat → List Nat
  | 0, acc => acc
  | count + 1, acc =>
    sha1ExtendAux count
      (rotl 1 (acc.getD 2 0 ^^^ acc.getD 7 0 ^^^ acc.getD 13 0 ^^^ acc.getD 15 0) :: acc)

/-- Extend the 16 block words to the 80 schedule words. -/
def sha1Extend (ws : List Nat) : List Nat :=
  (sha1ExtendAux 64 ws.reverse).reverse

/-- One SHA-1 round: state `(a,b,c,d,e)`, round index `i`, schedule word `w`. -/
def sha1Round (st : Nat × Nat × Nat × Nat × Nat) (i w : Nat) : Nat × Nat × Nat × Nat × Nat :=
  let (a, b, c, d, e) := st
  (w32 (rotl 5 a + sha1F i b c d + e + sha1K i + w), a, rotl 30 b, c, d)

/-- Process one 64-byte block. -/
def sha1Block (h : Nat × Nat × Nat × Nat × Nat) (block : List Nat) : Nat × Nat × Nat × Nat × Nat :=
  let ws := sha1Extend (bytesToWords block)
  let (a, b, c, d, e) := ws.enum.foldl (fun st p => sha1Round st p.1 p.2) h
  let (h0, h1, h2, h3, h4) := h
  (w32 (h0 + a), w32 (h1 + b), w32 (h2 + c), w32 (h3 + d), w32 (h4 + e))

/-- Big-endian 8-byte rendering of the message bit length. -/
def lenBytes (bits : Nat) : List Nat :=
  [bits >>> 56 % 256, bits >>> 48 % 256, bits >>> 40 % 256, bits >>> 32 % 256,
   bits >>> 24 % 256, bits >>> 16 % 256, bits >>> 8 % 256, bits % 256]

/-- SHA-1 padding: `0x80`, zeros to 56 mod 64, then the 64-bit bit length. -/
def sha1Pad (msg : List Nat) : List Nat :=
  msg ++ 128 :: List.replicate ((119 - msg.length % 64) % 64) 0 ++ lenBytes (msg.length * 8)

/-- Split a byte list into 64-byte blocks (fuel-driven; `fuel = l.length`
suffices since each step consumes 64 bytes of a nonempty list). -/
def chunksGo : Nat → List Nat → List (List Nat)
  | 0, _ => []
  | fuel + 1, l => if l = [] then [] else l.take 64 :: chunksGo fuel (l.drop 64)

/-- Split a byte list into 64-byte blocks. -/
def chunks64 (l : List Nat) : List (List Nat) :=
  chunksGo l.length l

/-- Big-endian bytes of one 32-bit word. -/
def wordBytes (w : Nat) : List Nat :=
  [w >>> 24 % 256, w >>> 16 % 256, w >>> 8 % 256, w % 256]

/-- SHA-1 of a byte list: the 20-byte digest. -/
def sha1 (msg : List Nat) : List Nat :=
  let (h0, h1, h2, h3, h4) :=
    (chunks64 (sha1Pad msg)).foldl sha1Block
      (0x67452301, 0xEFCDAB89, 0x98BADCFE, 0x10325476, 0xC3D2E1F0)
  wordBytes h0 ++ wordBytes h1 ++ wordBytes h2 ++ wordBytes h3 ++ wordBytes h4

/-- The standard base64 alphabet. -/
def b64Alphabet : List Char :=
  ['A', 'B', 'C', 'D', 'E', 'F', 'G', 'H', 'I', 'J', 'K', 'L', 'M',
   'N', 'O', 'P', 'Q', 'R', 'S', 'T', 'U', 'V', 'W', 'X', 'Y', 'Z',
   'a', 'b', 'c', 'd', 'e', 'f', 'g', 'h', 'i', 'j', 'k', 'l', 'm',
   'n', 'o', 'p', 'q', 'r', 's', 't', 'u', 'v', 'w', 'x', 'y', 'z',
   '0', '1', '2', '3', '4', '5', '6', '7', '8', '9', '+', '/']

/-- Base64 digit. -/
def b64Char (n : Nat) : Char := b64Alphabet.getD n 'A'

/-- Standard base64 with padding, 3 input bytes to 4 output characters. -/
def b64 : List Nat → List Char
  | [] => []
  | [a] => [b64Char (a / 4), b64Char (a % 4 * 16), '=', '=']
  | [a, b] => [b64Char (a / 4), b64Char (a % 4 * 16 + b / 16), b64Char (b % 16 * 4), '=']
  | a :: b :: c :: rest =>
    b64Char (a / 4) :: b64Char (a % 4 * 16 + b / 16) ::
      b64Char (b % 16 * 4 + c / 64) :: b64Char (c % 64) :: b64 rest

/-- The MusicBrainz URL-safe substitution actually performed by libdiscid:
`+`→`.`, `/`→`_`, `=`→`-`.  This is the mapping required by the
repository's own test vectors (`TestPut` expects
`"Wn8eRBtfLDfM0qjYPdxrz.Zjs_U-"`, whose trailing characters decode a
final `/U=` of the base64 digest as `_U-`). -/
def mbSub (c : Char) : Char :=
  if c = '+' then '.' else if c = '/' then '_' else if c = '=' then '-' else c

/-- The substitution as worded by the spec (§4.2 step 4): `+`→`.`,
`/`→`-`, `=`→`_`.  Kept separate to compare against the behaviour the
repository's tests pin down. -/
def mbSubSpec (c : Char) : Char :=
  if c = '+' then '.' else if c = '/' then '-' else if c = '=' then '_' else c

/-- Modelled from the spec: the canonical hash buffer of libdiscid's
MusicBrainz ID computation (§4.2): two uppercase hex digits each for the
first and last track numbers, then all 100 offset-array slots as 8
uppercase hex digits each. -/
def mbBuffer (t : Toc) : List Char :=
  hexU 2 t.firstTrack.toNat ++ hexU 2 t.lastTrack.toNat ++
    (t.offsets.map (fun v => hexU 8 v.toNat)).flatten

/-- Modelled from the spec: libdiscid `discid_get_id` (§4.2): SHA-1 of the
canonical buffer, base64 with padding, URL-safe substitution — with the
substitution table corrected to the one the repository's test vectors
require (see `mbSub`). -/
def Id (t : Toc) : String :=
  ⟨(b64 (sha1 ((mbBuffer t).map Char.toNat))).map mbSub⟩

/-- The ID computation with the substitution table exactly as the spec
words it (`mbSubSpec`); differs from the tested behaviour wherever the
digest's base64 contains `/` or `=`. -/
def IdSpecSubst (t : Toc) : String :=
  ⟨(b64 (sha1 ((mbBuffer t).map Char.toNat))).map mbSubSpec⟩

/-- Sum of the decimal digits (fuel-driven; `fuel = n` suffices). -/
def digitGo : Nat → Nat → Nat
  | 0, _ => 0
  | _, 0 => 0
  | fuel + 1, n => n % 10 + digitGo fuel (n / 10)

/-- Sum of the decimal digits of `n`. -/
def digitSum (n : Nat) : Nat := digitGo n n

/-- Modelled from the spec: libdiscid `discid_get_freedb_id` (§4.3): the
digit-sum checksum of the per-track start seconds reduced mod 255 in the
high byte, the total seconds in the middle 16 bits, the track count in the
low byte, as 8 lowercase hex digits. -/
def FreedbId (t : Toc) : String :=
  let first := t.firstTrack.toNat
  let last := t.lastTrack.toNat
  let checksum :=
    (((List.range (last + 1 - first)).map
      (fun j => digitSum ((arrGet t.offsets (first + j)).toNat / 75))).sum) % 255
  let totalSeconds := (arrGet t.offsets 0).toNat / 75 - (arrGet t.offsets first).toNat / 75
  let trackCount := last + 1 - first
  ⟨hexL8 (checksum * 16777216 + totalSeconds % 65536 * 256 + trackCount % 256)⟩

/-- Per-track data returned by the `Track` accessor (ISRC empty: never
read in a `Put`/`Parse` constructed disc). -/
structure Track where
  number : Int
  offset : Int
  sectors : Int
  isrc : String
  deriving DecidableEq, Repr

/-- The panic raised by the `Track` accessor for an out-of-bounds track
number (a Go panic, distinct from every returned error value). -/
inductive TrackOutOfRange where
  | outOfBounds (given first last : Int)
  deriving DecidableEq, Repr

/-- Modelled from the spec: libdiscid `discid_get_track_offset` — the
stored start sector of track `number` (§3). -/
def trackOffset (t : Toc) (number : Int) : Int :=
  arrGet t.offsets number.toNat

/-- Modelled from the spec: libdiscid `discid_get_track_length` — the next
track's start (the leadout for the last track) minus the track's own start
(§3). -/
def trackLength (t : Toc) (number : Int) : Int :=
  (if number < t.lastTrack then arrGet t.offsets (number.toNat + 1)
   else arrGet t.offsets 0) - arrGet t.offsets number.toNat

/-- Go `Disc.Track(number)`: panics when `number < FirstTrackNum()` or
`number > LastTrackNum()`, otherwise returns the derived track view. -/
def TrackGet (t : Toc) (number : Int) : Except TrackOutOfRange Track :=
  if number < t.firstTrack ∨ number > t.lastTrack then
    .error (.outOfBounds number t.firstTrack t.lastTrack)
  else
    .ok ⟨number, trackOffset t number, trackLength t number, ""⟩

/-- The canonical TOC string for the data `first last leadout offs`:
single-space separated canonical decimal renderings. -/
def renderToc (first last leadout : Nat) (offs : List Nat) : String :=
  ⟨joinSpace (natRender first :: natRender last :: natRender leadout :: offs.map natRender)⟩

/-- The loop state that a completed token run produces from the parsed
values `vs`: `first` and `last` from the first two values, the rest
written into the fresh 100-slot array. -/
def finalState (vs : List Int) : PState :=
  ⟨vs.getD 0 0, vs.getD 1 0, writeSeq (List.replicate 100 0) 0 (vs.drop 2)⟩

/-- No token index of the loop crosses the `last + 2` / `99 + 2` bounds:
under this condition the token loop never raises `tooManyOffsets`. -/
def noCross (vs : List Int) (n : Nat) : Prop :=
  ∀ k < n, 2 ≤ k → ((k : Int) ≤ wrap64 (vs.getD 1 0 + 2) ∧ (k : Int) ≤ 101)

instance (vs : List Int) (n : Nat) : Decidable (noCross vs n) := by
  unfold noCross; infer_instance

/-! ### Tokenisation and numeral round-trip lemmas -/

theorem splitSpace_ne_nil (l : List Char) : splitSpace l ≠ [] := by
  cases l with
  | nil => simp [splitSpace]
  | cons c rest =>
    simp only [splitSpace]
    split
    · simp
    · split <;> simp

theorem splitSpace_append (xs ys : List Char) :
    splitSpace (xs ++ ' ' :: ys) = splitSpace xs ++ splitSpace ys := by
  induction xs with
  | nil => simp [splitSpace]
  | cons c xs ih =>
    by_cases hc : c = ' '
    · subst hc; simp [splitSpace, ih]
    · simp only [List.cons_append, splitSpace, if_neg hc, List.append_eq]
      rw [ih]
      cases h : splitSpace xs with
      | nil => exact absurd h (splitSpace_ne_nil xs)
      | cons t ts => simp

theorem splitSpace_no_space (xs : List Char) (h : ' ' ∉ xs) : splitSpace xs = [xs] := by
  induction xs with
  | nil => rfl
  | cons c rest ih =>
    simp only [List.mem_cons, not_or] at h
    simp only [splitSpace, if_neg (Ne.symm h.1)]
    rw [ih h.2]

theorem splitSpace_joinSpace : ∀ ps : List (List Char), ps ≠ [] →
    (∀ p ∈ ps, ' ' ∉ p) → splitSpace (joinSpace ps) = ps
  | [], h, _ => absurd rfl h
  | [p], _, hp => by
    simpa [joinSpace] using splitSpace_no_space p (hp p (by simp))
  | p :: q :: ps, _, hp => by
    have hj : joinSpace (p :: q :: ps) = p ++ ' ' :: joinSpace (q :: ps) := rfl
    rw [hj, splitSpace_append, splitSpace_no_space p (hp p (by simp)),
      splitSpace_joinSpace (q :: ps) (by simp) (fun x hx => hp x (by simp [hx]))]
    rfl

theorem dchar_spec (d : Nat) (h : d < 10) :
    (dchar d).isDigit = true ∧ (dchar d).toNat - 48 = d := by
  interval_cases d <;> exact ⟨rfl, rfl⟩

theorem digitsGo_eq_digits : ∀ (fuel n : Nat), n ≤ fuel → digitsGo fuel n = Nat.digits 10 n
  | 0, n, h => by
    have hn : n = 0 := by omega
    subst hn
    simp [digitsGo, Nat.digits_zero]
  | fuel + 1, n, h => by
    rw [digitsGo]
    by_cases hn : n = 0
    · subst hn
      simp [Nat.digits_zero]
    · rw [if_neg hn, digitsGo_eq_digits fuel (n / 10) (by omega),
        show Nat.digits 10 n = n % 10 :: Nat.digits 10 (n / 10) from
          Nat.digits_def' (by norm_num) (by omega)]

theorem natRender_eq_digits (n : Nat) :
    natRender n = if n = 0 then ['0'] else ((Nat.digits 10 n).reverse).map dchar := by
  unfold natRender
  rw [digitsGo_eq_digits n n le_rfl]

theorem natRender_digit (n : Nat) : ∀ c ∈ natRender n, c.isDigit = true := by
  intro c hc
  rw [natRender_eq_digits] at hc
  split at hc
  · simp only [List.mem_singleton] at hc; subst hc; decide
  · simp only [List.mem_map, List.mem_reverse] at hc
    obtain ⟨d, hd, rfl⟩ := hc
    exact (dchar_spec d (Nat.digits_lt_base (by norm_num) hd)).1

theorem natRender_ne_nil (n : Nat) : natRender n ≠ [] := by
  rw [natRender_eq_digits]
  split
  · simp
  · simp [Nat.digits_ne_nil_iff_ne_zero, *]

theorem natRender_no_space (n : Nat) : ' ' ∉ natRender n := fun h =>
  absurd (natRender_digit n ' ' h) (by decide)

theorem foldl_dchar (a : Nat) : ∀ E : List Nat, (∀ d ∈ E, d < 10) →
    List.foldl (fun acc c => acc * 10 + (c.toNat - 48)) a (E.map dchar) =
      a * 10 ^ E.length + Nat.ofDigits 10 E.reverse
  | [], _ => by simp
  | e :: E, h => by
    have he : (dchar e).toNat - 48 = e := (dchar_spec e (h e (by simp))).2
    simp only [List.map_cons, List.foldl_cons, he, List.reverse_cons]
    rw [foldl_dchar (a * 10 + e) E (fun d hd => h d (by simp [hd])),
      Nat.ofDigits_append, Nat.ofDigits_singleton]
    simp [List.length_reverse, pow_succ]
    ring

theorem parseDigits_natRender (n : Nat) : parseDigits (natRender n) = some n := by
  unfold parseDigits
  rw [if_neg (natRender_ne_nil n), if_pos]
  · congr 1
    rw [natRender_eq_digits]
    split
    · subst n; rfl
    · rw [foldl_dchar 0 ((Nat.digits 10 n).reverse)
        (fun d hd => Nat.digits_lt_base (by norm_num) (List.mem_reverse.mp hd))]
      simp [Nat.ofDigits_digits]
  · rw [List.all_eq_true]
    intro c hc
    exact natRender_digit n c hc

theorem wrap64_eq_self (n : Int) (h1 : -9223372036854775808 ≤ n)
    (h2 : n ≤ 9223372036854775807) : wrap64 n = n := by
  unfold wrap64
  omega

theorem cint_eq_self (n : Int) (h1 : -2147483648 ≤ n) (h2 : n ≤ 2147483647) :
    cint n = n := by
  unfold cint
  omega

theorem atoi_ok_bound (cs : List Char) (v : Int) (h : atoi cs = .ok v) :
    -9223372036854775808 ≤ v ∧ v ≤ 9223372036854775807 := by
  unfold atoi at h
  cases hn : atoiNum cs with
  | none => rw [hn] at h; cases h
  | some w =>
    rw [hn] at h
    dsimp only at h
    by_cases hc : w < -9223372036854775808 ∨ w > 9223372036854775807
    · rw [if_pos hc] at h; cases h
    · rw [if_neg hc] at h
      cases h
      omega

theorem atoi_err_ne_tooMany (cs : List Char) (e : GoErr) (h : atoi cs = .error e) :
    e ≠ .tooManyOffsets := by
  unfold atoi at h
  cases hn : atoiNum cs with
  | none =>
    rw [hn] at h
    dsimp only at h
    cases h
    simp
  | some w =>
    rw [hn] at h
    dsimp only at h
    by_cases hc : w < -9223372036854775808 ∨ w > 9223372036854775807
    · rw [if_pos hc] at h
      cases h
      simp
    · rw [if_neg hc] at h
      cases h

theorem atoiNum_natRender (n : Nat) : atoiNum (natRender n) = some (n : Int) := by
  cases h : natRender n with
  | nil => exact absurd h (natRender_ne_nil n)
  | cons c rest =>
    have hc : c.isDigit = true := natRender_digit n c (by rw [h]; simp)
    have h1 : c ≠ '-' := fun e => by subst e; exact absurd hc (by decide)
    have h2 : c ≠ '+' := fun e => by subst e; exact absurd hc (by decide)
    have hpd : parseDigits (c :: rest) = some n := by
      rw [← h]; exact parseDigits_natRender n
    simp [atoiNum, if_neg h1, if_neg h2, hpd]

theorem atoi_natRender (n : Nat) (hle : (n : Int) ≤ 9223372036854775807) :
    atoi (natRender n) = .ok (n : Int) := by
  simp only [atoi, atoiNum_natRender]
  rw [if_neg (by omega)]

theorem atoiAll_length : ∀ {ts : List (List Char)} {vs : List Int},
    atoiAll ts = some vs → vs.length = ts.length
  | [], vs, h => by simp [atoiAll] at h; simp [← h]
  | t :: ts, vs, h => by
    simp only [atoiAll] at h
    cases h1 : atoi t with
    | error e => rw [h1] at h; exact absurd h (by simp)
    | ok v =>
      cases h2 : atoiAll ts with
      | none => rw [h1, h2] at h; exact absurd h (by simp)
      | some vs2 =>
        rw [h1, h2] at h
        cases h
        simp [atoiAll_length h2]

theorem atoiAll_cons {t : List Char} {ts : List (List Char)} {v : Int} {vs : List Int}
    (h1 : atoi t = .ok v) (h2 : atoiAll ts = some vs) :
    atoiAll (t :: ts) = some (v :: vs) := by
  simp [atoiAll, h1, h2]

theorem atoiAll_cons_elim {t : List Char} {ts : List (List Char)} {vs : List Int}
    (h : atoiAll (t :: ts) = some vs) :
    ∃ v vs2, atoi t = .ok v ∧ atoiAll ts = some vs2 ∧ vs = v :: vs2 := by
  simp only [atoiAll] at h
  cases h1 : atoi t with
  | error e => rw [h1] at h; exact absurd h (by simp)
  | ok v =>
    cases h2 : atoiAll ts with
    | none => rw [h1, h2] at h; exact absurd h (by simp)
    | some vs2 =>
      rw [h1, h2] at h
      cases h
      exact ⟨v, vs2, rfl, rfl, rfl⟩

theorem atoiAll_map_natRender : ∀ l : List Nat,
    (∀ n ∈ l, (n : Int) ≤ 9223372036854775807) →
    atoiAll (l.map natRender) = some (l.map (fun n : Nat => (n : Int)))
  | [], _ => rfl
  | n :: l, h => atoiAll_cons (atoi_natRender n (h n (by simp)))
      (atoiAll_map_natRender l (fun m hm => h m (by simp [hm])))

/-! ### Offset-array lemmas -/

theorem writeSeq_length : ∀ (vs : List Int) (l : List Int) (p : Nat),
    (writeSeq l p vs).length = l.length
  | [], _, _ => rfl
  | v :: vs, l, p => by rw [writeSeq, writeSeq_length vs]; simp

theorem writeSeq_eq : ∀ (vs : List Int) (l : List Int) (p : Nat), p + vs.length ≤ l.length →
    writeSeq l p vs = l.take p ++ vs ++ l.drop (p + vs.length)
  | [], l, p, h => by simp [writeSeq]
  | v :: vs, l, p, h => by
    simp only [List.length_cons] at h
    have hp : p < l.length := by omega
    have hlt : (l.take p).length = p := by rw [List.length_take]; omega
    rw [writeSeq, writeSeq_eq vs (l.set p v) (p + 1) (by simp only [List.length_set]; omega),
      List.set_eq_take_cons_drop v hp]
    have h1 : (l.take p ++ v :: l.drop (p + 1)).take (p + 1) = l.take p ++ [v] := by
      rw [show p + 1 = (l.take p).length + 1 by omega, List.take_append]
      rfl
    have h2 : (l.take p ++ v :: l.drop (p + 1)).drop (p + 1 + vs.length) =
        l.drop (p + (vs.length + 1)) := by
      rw [show p + 1 + vs.length = (l.take p).length + (1 + vs.length) by omega,
        List.drop_append, show 1 + vs.length = vs.length + 1 by omega, List.drop_succ_cons,
        List.drop_drop]
      congr 1
      omega
    rw [h1, h2]
    simp

theorem fillOffsets_eq : ∀ (vals : List Int) (first : Int) (i : Nat) (c : List Int),
    0 ≤ (i : Int) + first → (i : Int) + first + vals.length ≤ 100 → c.length = 100 →
    fillOffsets first i vals c = .ok (writeSeq c ((i : Int) + first).toNat (vals.map cint))
  | [], _, _, _, _, _, _ => rfl
  | n :: vals, first, i, c, h0, hlen, hc => by
    simp only [List.length_cons] at hlen
    have hw : wrap64 ((i : Int) + first) = (i : Int) + first :=
      wrap64_eq_self _ (by push_cast at hlen ⊢; omega) (by push_cast at hlen ⊢; omega)
    rw [fillOffsets, hw, if_neg (by push_cast at hlen ⊢; omega),
      if_neg (by omega),
      fillOffsets_eq vals first (i + 1) (c.set ((i : Int) + first).toNat (cint n))
        (by push_cast; omega) (by push_cast at hlen ⊢; omega) (by simp [hc]),
      show ((i + 1 : Nat) : Int) + first = ((i : Int) + first) + 1 by push_cast; ring,
      show (((i : Int) + first) + 1).toNat = ((i : Int) + first).toNat + 1 by omega]
    rfl

theorem fillOffsets_ok : ∀ (vals : List Int) (first : Int) (i : Nat) (c : List Int),
    0 ≤ (i : Int) + first → (i : Int) + first + vals.length ≤ 9223372036854775807 →
    ∃ c2, fillOffsets first i vals c = .ok c2
  | [], _, _, c, _, _ => ⟨c, rfl⟩
  | n :: vals, first, i, c, h0, hmax => by
    simp only [List.length_cons] at hmax
    have hw : wrap64 ((i : Int) + first) = (i : Int) + first :=
      wrap64_eq_self _ (by omega) (by push_cast at hmax ⊢; omega)
    rw [fillOffsets, hw]
    by_cases h99 : (i : Int) + first > 99
    · exact ⟨c, by rw [if_pos h99]⟩
    · rw [if_neg h99, if_neg (by omega)]
      exact fillOffsets_ok vals first (i + 1) _ (by push_cast; omega)
        (by push_cast at hmax ⊢; omega)

theorem fillOffsets_err : ∀ (vals : List Int) (first : Int) (i : Nat) (c : List Int)
    (e : GoErr), fillOffsets first i vals c = .error e → e = .indexOutOfRange
  | [], _, _, c, e, h => by simp [fillOffsets] at h
  | n :: vals, first, i, c, e, h => by
    rw [fillOffsets] at h
    split at h
    · simp at h
    · split at h
      · simpa using h.symm
      · exact fillOffsets_err vals first (i + 1) _ e h

theorem Put_cases (first : Int) (offsets : List Int) :
    Put first offsets = .error .indexOutOfRange ∨
    Put first offsets = .error .illegalTrackLimits ∨
    ∃ t, Put first offsets = .ok t := by
  cases offsets with
  | nil => exact .inl rfl
  | cons lo rest =>
    rw [Put]
    cases hf : fillOffsets first 0 rest ((List.replicate 100 0).set 0 (cint lo)) with
    | error e =>
      have he := fillOffsets_err rest first 0 _ e hf
      subst he
      exact .inl rfl
    | ok c =>
      by_cases hcond : cint (wrap64 (first + ((lo :: rest).length : Int) - 2)) -
            cint first + 1 > 99 ∨
          cint (wrap64 (first + ((lo :: rest).length : Int) - 2)) > 99
      · refine .inr (.inl ?_)
        show discidPut _ _ _ = _
        rw [discidPut, if_pos hcond]
      · refine .inr (.inr ⟨⟨cint first,
          cint (wrap64 (first + ((lo :: rest).length : Int) - 2)), c⟩, ?_⟩)
        show discidPut _ _ _ = _
        rw [discidPut, if_neg hcond]

theorem Put_ok (first lo : Int) (rest : List Int)
    (h1 : 1 ≤ first) (h2 : (rest.length : Int) ≤ 99) (h3 : first + rest.length - 1 ≤ 99) :
    Put first (lo :: rest) = .ok ⟨first, first + rest.length - 1,
      writeSeq ((List.replicate 100 0).set 0 (cint lo)) first.toNat (rest.map cint)⟩ := by
  have hfill := fillOffsets_eq rest first 0 ((List.replicate 100 0).set 0 (cint lo))
    (by push_cast; omega) (by push_cast; omega)
    (by simp only [List.length_set, List.length_replicate])
  rw [show (((0 : Nat) : Int) + first) = first by push_cast; ring] at hfill
  rw [Put, hfill]
  show discidPut _ _ _ = _
  have harith : wrap64 (first + ((lo :: rest).length : Int) - 2) =
      first + rest.length - 1 := by
    rw [show first + ((lo :: rest).length : Int) - 2 = first + rest.length - 1 by
      simp only [List.length_cons]; push_cast; omega]
    exact wrap64_eq_self _ (by omega) (by omega)
  rw [harith, cint_eq_self first (by omega) (by omega),
    cint_eq_self (first + rest.length - 1) (by omega) (by omega), discidPut,
    if_neg (by omega)]

/-! ### Token-loop lemmas -/

theorem parseTokens_cons_some (i : Nat) (t : List Char) (rest : List (List Char))
    (st : PState) (v : Int) (h : atoi t = .ok v) :
    parseTokens i (t :: rest) st =
      if i = 0 then parseTokens (i + 1) rest { st with first := v }
      else if i = 1 then parseTokens (i + 1) rest { st with last := v }
      else if (i : Int) > wrap64 (st.last + 2) ∨ (i : Int) > 99 + 2 then
        .error .tooManyOffsets
      else parseTokens (i + 1) rest { st with offsets := st.offsets.set (i - 2) v } := by
  simp only [parseTokens, h]

theorem parseTokens_cons_err (i : Nat) (t : List Char) (rest : List (List Char))
    (st : PState) (e : GoErr) (h : atoi t = .error e) :
    parseTokens i (t :: rest) st = .error e := by
  simp only [parseTokens, h]

theorem parseTokens_run : ∀ (ts : List (List Char)) (vs : List Int) (i : Nat) (st : PState),
    2 ≤ i → atoiAll ts = some vs →
    (∀ k < ts.length, ((i + k : Int) ≤ wrap64 (st.last + 2) ∧ (i + k : Int) ≤ 101)) →
    parseTokens i ts st = .ok ⟨st.first, st.last, writeSeq st.offsets (i - 2) vs⟩
  | [], vs, i, st, _, hall, _ => by
    simp only [atoiAll] at hall
    cases hall
    rfl
  | t :: rest, vs, i, st, hi, hall, hb => by
    obtain ⟨v, vs2, hat, hrest, rfl⟩ := atoiAll_cons_elim hall
    have hb0 := hb 0 (by simp)
    rw [parseTokens_cons_some i t rest st v hat, if_neg (by omega), if_neg (by omega),
      if_neg (by push_cast at hb0 ⊢; omega)]
    rw [parseTokens_run rest vs2 (i + 1) _ (by omega) hrest (fun k hk => by
      have := hb (k + 1) (by simpa using Nat.succ_lt_succ hk)
      refine ⟨?_, ?_⟩ <;> (push_cast at this ⊢; omega))]
    rw [show i + 1 - 2 = (i - 2) + 1 by omega]
    rfl

theorem Parse_eval (s : String) (vs : List Int)
    (hall : atoiAll (splitSpace s.data) = some vs)
    (hnc : noCross vs (splitSpace s.data).length) :
    Parse s = parseFin s (splitSpace s.data).length (finalState vs) := by
  unfold Parse
  cases hts : splitSpace s.data with
  | nil => exact absurd hts (splitSpace_ne_nil _)
  | cons t0 ts1 =>
    rw [hts] at hall hnc
    obtain ⟨v0, vs1, hat0, hall1, rfl⟩ := atoiAll_cons_elim hall
    cases ts1 with
    | nil =>
      simp only [atoiAll] at hall1
      cases hall1
      dsimp only
      rw [parseTokens_cons_some 0 t0 [] _ v0 hat0, if_pos rfl]
      rfl
    | cons t1 ts2 =>
      obtain ⟨v1, vs2, hat1, hall2, rfl⟩ := atoiAll_cons_elim hall1
      dsimp only
      rw [parseTokens_cons_some 0 t0 _ _ v0 hat0, if_pos rfl,
        parseTokens_cons_some 1 t1 _ _ v1 hat1, if_neg (by omega), if_pos rfl]
      rw [parseTokens_run ts2 vs2 2 _ (by omega) hall2 (fun k hk => by
        have := hnc (k + 2) (by simp only [List.length_cons]; omega) (by omega)
        simp only [List.getD_cons_succ, List.getD_cons_zero] at this
        refine ⟨?_, ?_⟩ <;> (push_cast at this ⊢; omega))]
      rfl

theorem parseFin_cases (s : String) (n : Nat) (st : PState) :
    parseFin s n st = .error (.invalidTocString s) ∨
    (∃ oc tc, parseFin s n st = .error (.offsetCountMismatch oc tc)) ∨
    parseFin s n st = .error .sliceBounds ∨
    parseFin s n st = .error .indexOutOfRange ∨
    parseFin s n st = .error .illegalTrackLimits ∨
    ∃ t, parseFin s n st = .ok t := by
  unfold parseFin
  dsimp only
  split
  · exact .inl rfl
  · split
    · exact .inr (.inl ⟨_, _, rfl⟩)
    · cases hg : goSlice st.offsets (st.last - st.first + 1 + 1) with
      | error e =>
        unfold goSlice at hg
        split at hg
        · cases hg
          exact .inr (.inr (.inl rfl))
        · simp at hg
      | ok sl =>
        rcases Put_cases st.first sl with h | h | ⟨t, h⟩
        · exact .inr (.inr (.inr (.inl h)))
        · exact .inr (.inr (.inr (.inr (.inl h))))
        · exact .inr (.inr (.inr (.inr (.inr ⟨t, h⟩))))

/-! ### Characterising the `tooManyOffsets` error -/

theorem atoiAll_isSome_cons (t : List Char) (ts : List (List Char)) (v : Int)
    (h : atoi t = .ok v) : (atoiAll (t :: ts)).isSome = (atoiAll ts).isSome := by
  simp only [atoiAll, h]
  cases atoiAll ts <;> simp

theorem parseTokens_tooMany_iff : ∀ (ts : List (List Char)) (i : Nat) (st : PState), 2 ≤ i →
    (parseTokens i ts st = .error .tooManyOffsets ↔
      ∃ j < ts.length, (atoiAll (ts.take (j + 1))).isSome ∧
        ((i + j : Int) > wrap64 (st.last + 2) ∨ (i + j : Int) > 101))
  | [], i, st, hi => by simp [parseTokens]
  | t :: rest, i, st, hi => by
    cases hat : atoi t with
    | error e =>
      rw [parseTokens_cons_err i t rest st e hat]
      constructor
      · intro h
        simp only [Except.error.injEq] at h
        exact absurd h (atoi_err_ne_tooMany t e hat)
      · rintro ⟨j, hj, hsome, hc⟩
        rw [List.take_succ_cons] at hsome
        simp [atoiAll, hat] at hsome
    | ok v =>
      rw [parseTokens_cons_some i t rest st v hat, if_neg (by omega), if_neg (by omega)]
      by_cases hc : (i : Int) > wrap64 (st.last + 2) ∨ (i : Int) > 99 + 2
      · rw [if_pos hc]
        constructor
        · intro _
          refine ⟨0, by simp, by simp [atoiAll, hat], ?_⟩
          push_cast
          omega
        · intro _
          rfl
      · rw [if_neg hc, parseTokens_tooMany_iff rest (i + 1) _ (by omega)]
        constructor
        · rintro ⟨j, hj, hsome, hcc⟩
          refine ⟨j + 1, by simpa using Nat.succ_lt_succ hj, ?_, ?_⟩
          · rw [List.take_succ_cons, atoiAll_isSome_cons t _ v hat]
            exact hsome
          · push_cast at hcc ⊢
            omega
        · rintro ⟨j, hj, hsome, hcc⟩
          cases j with
          | zero =>
            push_cast at hcc hc
            omega
          | succ j2 =>
            refine ⟨j2, by simpa using hj, ?_, ?_⟩
            · rw [List.take_succ_cons, atoiAll_isSome_cons t _ v hat] at hsome
              exact hsome
            · push_cast at hcc ⊢
              omega

theorem parseFin_ne_tooMany (s : String) (n : Nat) (st : PState) :
    parseFin s n st ≠ .error .tooManyOffsets := by
  rcases parseFin_cases s n st with h | ⟨oc, tc, h⟩ | h | h | h | ⟨t, h⟩ <;> simp [h]

theorem Parse_tooMany_iff (s : String) :
    Parse s = .error .tooManyOffsets ↔
      ∃ v1, atoi ((splitSpace s.data).getD 1 []) = .ok v1 ∧
        ∃ j, 2 ≤ j ∧ j < (splitSpace s.data).length ∧
          (atoiAll ((splitSpace s.data).take (j + 1))).isSome ∧
          ((j : Int) > wrap64 (v1 + 2) ∨ (j : Int) > 101) := by
  unfold Parse
  cases hts : splitSpace s.data with
  | nil => exact absurd hts (splitSpace_ne_nil _)
  | cons t0 ts1 =>
    dsimp only
    cases hat0 : atoi t0 with
    | error e =>
      rw [parseTokens_cons_err 0 t0 ts1 _ e hat0]
      constructor
      · intro h
        simp only [Except.error.injEq] at h
        exact absurd h (atoi_err_ne_tooMany t0 e hat0)
      · rintro ⟨v1, hv1, j, hj2, hjlen, hsome, hcc⟩
        rw [List.take_succ_cons] at hsome
        simp [atoiAll, hat0] at hsome
    | ok v0 =>
      rw [parseTokens_cons_some 0 t0 ts1 _ v0 hat0, if_pos rfl]
      cases ts1 with
      | nil =>
        rw [show parseTokens 1 [] _ = .ok _ from rfl]
        constructor
        · intro h
          exact absurd h (by simpa using parseFin_ne_tooMany s 1 _)
        · rintro ⟨v1, hv1, j, hj2, hjlen, hsome, hcc⟩
          simp at hjlen
          omega
      | cons t1 ts2 =>
        cases hat1 : atoi t1 with
        | error e =>
          rw [parseTokens_cons_err 1 t1 ts2 _ e hat1]
          constructor
          · intro h
            simp only [Except.error.injEq] at h
            exact absurd h (atoi_err_ne_tooMany t1 e hat1)
          · rintro ⟨v1, hv1, j, hj2, hjlen, hsome, hcc⟩
            simp only [List.getD_cons_succ, List.getD_cons_zero] at hv1
            rw [hat1] at hv1
            cases hv1
        | ok v1 =>
          rw [parseTokens_cons_some 1 t1 ts2 _ v1 hat1, if_neg (by omega), if_pos rfl]
          dsimp only
          have hloop : parseTokens 2 ts2 ⟨v0, v1, List.replicate 100 0⟩ =
              .error .tooManyOffsets ↔
              ∃ j < ts2.length, (atoiAll (ts2.take (j + 1))).isSome ∧
                ((2 + j : Int) > wrap64 (v1 + 2) ∨ (2 + j : Int) > 101) :=
            parseTokens_tooMany_iff ts2 2 ⟨v0, v1, List.replicate 100 0⟩ (by omega)
          have hbridge : (∃ j < ts2.length, (atoiAll (ts2.take (j + 1))).isSome ∧
              ((2 + j : Int) > wrap64 (v1 + 2) ∨ (2 + j : Int) > 101)) ↔
              (∃ w1, atoi ((t0 :: t1 :: ts2).getD 1 []) = .ok w1 ∧
                ∃ j, 2 ≤ j ∧ j < (t0 :: t1 :: ts2).length ∧
                  (atoiAll ((t0 :: t1 :: ts2).take (j + 1))).isSome ∧
                  ((j : Int) > wrap64 (w1 + 2) ∨ (j : Int) > 101)) := by
            constructor
            · rintro ⟨j, hj, hsome, hcc⟩
              refine ⟨v1, by simpa using hat1, j + 2, by omega,
                by simp only [List.length_cons]; omega, ?_, ?_⟩
              · rw [show j + 2 + 1 = (j + 1) + 1 + 1 by omega, List.take_succ_cons,
                  List.take_succ_cons, atoiAll_isSome_cons t0 _ v0 hat0,
                  atoiAll_isSome_cons t1 _ v1 hat1]
                exact hsome
              · push_cast at hcc ⊢
                omega
            · rintro ⟨w1, hw1, j, hj2, hjlen, hsome, hcc⟩
              simp only [List.getD_cons_succ, List.getD_cons_zero] at hw1
              rw [hat1] at hw1
              cases hw1
              obtain ⟨j2, rfl⟩ : ∃ j2, j = j2 + 2 := ⟨j - 2, by omega⟩
              refine ⟨j2, by simp only [List.length_cons] at hjlen; omega, ?_, ?_⟩
              · rw [show j2 + 2 + 1 = (j2 + 1) + 1 + 1 by omega, List.take_succ_cons,
                  List.take_succ_cons, atoiAll_isSome_cons t0 _ v0 hat0,
                  atoiAll_isSome_cons t1 _ v1 hat1] at hsome
                exact hsome
              · push_cast at hcc ⊢
                omega
          rw [← hbridge]
          cases hp : parseTokens 2 ts2 (⟨v0, v1, List.replicate 100 0⟩ : PState) with
          | error e =>
            rw [hp] at hloop
            constructor
            · intro h
              have he : e = .tooManyOffsets := by
                have := h
                simp only [Except.error.injEq] at this
                exact this
              exact hloop.mp (by rw [he])
            · intro h
              have := hloop.mpr h
              simp only [Except.error.injEq] at this
              rw [this]
          | ok st2 =>
            rw [hp] at hloop
            constructor
            · intro h
              exact absurd h (parseFin_ne_tooMany s _ _)
            · intro h
              exact absurd (hloop.mpr h) (by simp)

/-! ### Round-trip infrastructure -/

theorem intRender_natCast (n : Nat) : intRender (n : Int) = natRender n := by
  unfold intRender
  rw [if_neg (by omega), Int.toNat_natCast]

theorem splitSpace_renderToc (first last leadout : Nat) (offs : List Nat) :
    splitSpace (renderToc first last leadout offs).data =
      natRender first :: natRender last :: natRender leadout :: offs.map natRender := by
  show splitSpace (joinSpace _) = _
  refine splitSpace_joinSpace _ (by simp) ?_
  intro p hp
  simp only [List.mem_cons, List.mem_map] at hp
  rcases hp with rfl | rfl | rfl | ⟨n, _, rfl⟩ <;> exact natRender_no_space _

theorem atoiAll_renderToc (first last leadout : Nat) (offs : List Nat)
    (hf : (first : Int) ≤ 9223372036854775807) (hl : (last : Int) ≤ 9223372036854775807)
    (hlo : (leadout : Int) ≤ 9223372036854775807)
    (hoffs : ∀ n ∈ offs, (n : Int) ≤ 9223372036854775807) :
    atoiAll (natRender first :: natRender last :: natRender leadout :: offs.map natRender) =
      some ((first : Int) :: (last : Int) :: (leadout : Int) :: offs.map (fun n : Nat => (n : Int))) :=
  atoiAll_cons (atoi_natRender first hf) (atoiAll_cons (atoi_natRender last hl)
    (atoiAll_cons (atoi_natRender leadout hlo) (atoiAll_map_natRender offs hoffs)))

/-- The 100-slot array `Put` builds: the leadout in slot 0, the track
values in slots `first .. first+len-1`, zeros elsewhere. -/
theorem put_array_shape (first len : Nat) (lo : Int) (vals : List Int)
    (h1 : 1 ≤ first) (hv : vals.length = len) (hle : first + len ≤ 100) :
    writeSeq ((List.replicate 100 0).set 0 lo) first vals =
      lo :: (List.replicate (first - 1) 0 ++ vals ++ List.replicate (100 - first - len) 0) := by
  have hbase : (List.replicate 100 (0 : Int)).set 0 lo = lo :: List.replicate 99 0 := rfl
  rw [hbase, writeSeq_eq vals (lo :: List.replicate 99 0) first
    (by simp only [List.length_cons, List.length_replicate]; omega)]
  have htake : (lo :: List.replicate 99 (0 : Int)).take first =
      lo :: List.replicate (first - 1) 0 := by
    rw [show first = (first - 1) + 1 by omega, List.take_succ_cons, List.take_replicate]
    congr 2
    omega
  have hdrop : (lo :: List.replicate 99 (0 : Int)).drop (first + vals.length) =
      List.replicate (100 - first - len) 0 := by
    rw [show first + vals.length = (first + len - 1) + 1 by omega, List.drop_succ_cons,
      List.drop_replicate]
    congr 1
    omega
  rw [htake, hdrop]
  simp only [List.cons_append]

/-- Parsing a canonical rendering delegates to `Put` on exactly the
rendered leadout and track offsets. -/
theorem Parse_renderToc_put (first last leadout : Nat) (offs : List Nat)
    (h1 : 1 ≤ first) (h2 : first ≤ last) (h3 : last ≤ 99)
    (hlen : offs.length = last - first + 1)
    (hlo : (leadout : Int) ≤ 9223372036854775807)
    (hoffs : ∀ n ∈ offs, (n : Int) ≤ 9223372036854775807) :
    Parse (renderToc first last leadout offs) =
      Put (first : Int) ((leadout : Int) :: offs.map (fun n : Nat => (n : Int))) := by
  have hts := splitSpace_renderToc first last leadout offs
  have hall : atoiAll (splitSpace (renderToc first last leadout offs).data) =
      some ((first : Int) :: (last : Int) :: (leadout : Int) :: offs.map (fun n : Nat => (n : Int))) := by
    rw [hts]
    exact atoiAll_renderToc first last leadout offs (by omega)
      (by omega) hlo hoffs
  have hnlen : (splitSpace (renderToc first last leadout offs).data).length =
      offs.length + 3 := by
    rw [hts]
    simp
  rw [Parse_eval _ _ hall (by
    intro k hk hk2
    rw [hnlen] at hk
    simp only [List.getD_cons_succ, List.getD_cons_zero]
    rw [wrap64_eq_self ((last : Int) + 2) (by omega) (by omega)]
    constructor <;> omega)]
  rw [hnlen]
  unfold parseFin finalState
  simp only [List.getD_cons_zero, List.getD_cons_succ, List.drop_succ_cons, List.drop_zero]
  rw [if_neg (by push_cast; omega)]
  have htc : (last : Int) - (first : Int) + 1 = (offs.length : Int) := by omega
  rw [if_neg (by push_cast; omega)]
  have hws : writeSeq (List.replicate 100 0) 0 ((leadout : Int) :: offs.map (fun n : Nat => (n : Int))) =
      ((leadout : Int) :: offs.map (fun n : Nat => (n : Int))) ++
        List.replicate (100 - (offs.length + 1)) 0 := by
    rw [writeSeq_eq _ _ 0
      (by simp only [List.length_cons, List.length_map, List.length_replicate]; omega)]
    rw [List.take_zero, List.nil_append, Nat.zero_add, List.drop_replicate]
    simp only [List.length_cons, List.length_map]
  have hgs : goSlice
      (writeSeq (List.replicate 100 0) 0 ((leadout : Int) :: offs.map (fun n : Nat => (n : Int))))
      ((last : Int) - (first : Int) + 1 + 1) =
      .ok ((leadout : Int) :: offs.map (fun n : Nat => (n : Int))) := by
    unfold goSlice
    rw [if_neg (by rw [writeSeq_length]; simp only [List.length_replicate]; push_cast; omega)]
    congr 1
    rw [hws, show (((last : Int) - (first : Int) + 1 + 1)).toNat =
      ((leadout : Int) :: offs.map (fun n : Nat => (n : Int))).length by
        simp only [List.length_cons, List.length_map]; omega, List.take_left]
  rw [hgs]

/-- Rendering the TOC `Put` assembled from a canonical rendering's data
reproduces that rendering. -/
theorem TocString_of_put (first last leadout : Nat) (offs : List Nat)
    (h1 : 1 ≤ first) (h2 : first ≤ last) (h3 : last ≤ 99)
    (hlen : offs.length = last - first + 1) :
    TocString ⟨(first : Int), (first : Int) + (offs.length : Int) - 1,
      writeSeq ((List.replicate 100 0).set 0 (leadout : Int)) first
        (offs.map (fun n : Nat => (n : Int)))⟩ = renderToc first last leadout offs := by
  have harr := put_array_shape first offs.length (leadout : Int)
    (offs.map (fun n : Nat => (n : Int))) h1 (by simp) (by omega)
  have hdrop1 : ∀ Z : List Int, ((leadout : Int) :: Z).drop first = Z.drop (first - 1) := by
    intro Z
    have hf : first = (first - 1) + 1 := by omega
    conv_lhs => rw [hf, List.drop_succ_cons]
  have hdrop2 : (List.replicate (first - 1) (0 : Int) ++
      offs.map (fun n : Nat => (n : Int)) ++
      List.replicate (100 - first - offs.length) 0).drop (first - 1) =
      offs.map (fun n : Nat => (n : Int)) ++ List.replicate (100 - first - offs.length) 0 := by
    rw [List.append_assoc]
    exact List.drop_left' (by simp)
  have htake2 : (offs.map (fun n : Nat => (n : Int)) ++
      List.replicate (100 - first - offs.length) 0).take (last + 1 - first) =
      offs.map (fun n : Nat => (n : Int)) :=
    List.take_left' (by simp; omega)
  unfold TocString tocTrackOffsets arrGet
  dsimp only
  rw [Int.toNat_natCast, show ((first : Int) + (offs.length : Int) - 1).toNat = last by omega,
    harr, hdrop1, hdrop2, htake2, List.getD_cons_zero]
  unfold renderToc
  congr 1
  rw [intRender_natCast, show ((first : Int) + (offs.length : Int) - 1) = (last : Int) by omega,
    intRender_natCast, intRender_natCast, List.map_map,
    show intRender ∘ (fun n : Nat => (n : Int)) = natRender from funext intRender_natCast]

theorem goSlice_err (l : List Int) (high : Int) (e : GoErr)
    (h : goSlice l high = .error e) : e = .sliceBounds := by
  unfold goSlice at h
  split at h
  · cases h
    rfl
  · cases h

theorem Put_ok_exists (first : Int) (offsets : List Int)
    (h1 : 1 ≤ first) (hne : offsets ≠ [])
    (h2 : (offsets.length : Int) - 1 ≤ 99) (h3 : first + offsets.length - 2 ≤ 99) :
    ∃ t, Put first offsets = .ok t ∧ t.firstTrack = first ∧
      t.lastTrack = first + offsets.length - 2 := by
  cases offsets with
  | nil => exact absurd rfl hne
  | cons lo rest =>
    simp only [List.length_cons] at h2 h3
    rw [Put_ok first lo rest h1 (by push_cast at h2 ⊢; omega) (by push_cast at h3 ⊢; omega)]
    refine ⟨_, rfl, rfl, ?_⟩
    simp only [List.length_cons]
    push_cast
    omega

/-- After a completed token loop whose structural checks pass, `Parse`'s
tail is the offset-count check followed by the slice and the delegation to
`Put`. -/
theorem parseFin_structural (s : String) (n : Nat) (st : PState)
    (hno : ¬(n - 1 < 2 ∨ st.first < 1 ∨ st.last < 1 ∨ st.last > 99)) :
    parseFin s n st =
      if ((n - 1 : Nat) : Int) - 2 < st.last - st.first + 1 then
        .error (.offsetCountMismatch (((n - 1 : Nat) : Int) - 2) (st.last - st.first + 1))
      else
        match goSlice st.offsets (st.last - st.first + 1 + 1) with
        | .error e => .error e
        | .ok sl => Put st.first sl := by
  unfold parseFin
  dsimp only
  rw [if_neg hno]

theorem parseFin_invalidToc_iff (s : String) (n : Nat) (st : PState) :
    parseFin s n st = .error (.invalidTocString s) ↔
      (n - 1 < 2 ∨ st.first < 1 ∨ st.last < 1 ∨ st.last > 99) := by
  by_cases hc : n - 1 < 2 ∨ st.first < 1 ∨ st.last < 1 ∨ st.last > 99
  · refine iff_of_true ?_ hc
    unfold parseFin
    dsimp only
    rw [if_pos hc]
  · refine iff_of_false ?_ hc
    rw [parseFin_structural s n st hc]
    split
    · simp
    · cases hg : goSlice st.offsets (st.last - st.first + 1 + 1) with
      | error e =>
        have := goSlice_err _ _ _ hg
        subst this
        simp
      | ok sl =>
        rcases Put_cases st.first sl with h | h | ⟨t, h⟩ <;> simp [h]

/-! ### Identifier length -/

theorem b64_length : ∀ l : List Nat, (b64 l).length = 4 * ((l.length + 2) / 3)
  | [] => by simp [b64]
  | [a] => by simp [b64]
  | [a, b] => by simp [b64]
  | a :: b :: c :: rest => by
    simp only [b64, List.length_cons]
    rw [b64_length rest]
    omega

theorem sha1_length (msg : List Nat) : (sha1 msg).length = 20 := by
  unfold sha1
  rcases hfold : (chunks64 (sha1Pad msg)).foldl sha1Block
      (0x67452301, 0xEFCDAB89, 0x98BADCFE, 0x10325476, 0xC3D2E1F0) with ⟨a, b, c, d, e⟩
  simp [wordBytes]

theorem Id_length (t : Toc) : (Id t).length = 28 := by
  unfold Id
  show (List.map _ _).length = 28
  rw [List.length_map, b64_length, sha1_length]

/-! ### Claim theorems -/

/-- The reference TOC offsets used by the repository's `TestPut`. -/
def offsTest : List Int :=
  [206535, 150, 18901, 39738, 59557, 79152, 100126, 124833, 147278, 166336, 182560]

theorem Put_illegal_iff (first : Int) (offs : List Int) (h1 : 1 ≤ first) (hne : offs ≠ [])
    (hbound : first + offs.length ≤ 2147483648) :
    Put first offs = .error .illegalTrackLimits ↔
      ((offs.length : Int) - 1 > 99 ∨ first + offs.length - 2 > 99) := by
  cases offs with
  | nil => exact absurd rfl hne
  | cons lo rest =>
    simp only [List.length_cons] at hbound
    push_cast at hbound
    rw [Put]
    obtain ⟨c2, hc2⟩ := fillOffsets_ok rest first 0 _ (by push_cast; omega)
      (by push_cast; omega)
    rw [hc2]
    show discidPut _ _ _ = _ ↔ _
    have hw : wrap64 (first + ((lo :: rest).length : Int) - 2) =
        first + ((lo :: rest).length : Int) - 2 := by
      apply wrap64_eq_self <;> (simp only [List.length_cons]; push_cast; omega)
    have hcf : cint first = first :=
      cint_eq_self first (by omega) (by omega)
    have hcl : cint (first + ((lo :: rest).length : Int) - 2) =
        first + ((lo :: rest).length : Int) - 2 := by
      apply cint_eq_self <;> (simp only [List.length_cons]; push_cast; omega)
    rw [hw, hcf, hcl]
    unfold discidPut
    by_cases hcond : (first + ((lo :: rest).length : Int) - 2) - first + 1 > 99 ∨
        first + ((lo :: rest).length : Int) - 2 > 99
    · rw [if_pos hcond]
      refine iff_of_true rfl ?_
      simp only [List.length_cons] at hcond ⊢
      push_cast at hcond ⊢
      omega
    · rw [if_neg hcond]
      refine iff_of_false (by simp) ?_
      simp only [List.length_cons] at hcond ⊢
      push_cast at hcond ⊢
      omega

/-- C10: `Put` indexes `offsets[0]` before any validation: for the empty
offset list it panics (index out of range) instead of returning any
documented error, for every value of `first`. -/
theorem claim10_put_empty_panics (first : Int) :
    Put first [] = .error .indexOutOfRange ∧
      Put first [] ≠ .error .illegalTrackLimits := by
  refine ⟨rfl, ?_⟩
  intro h
  simp [Put] at h

theorem claim10_witness : Put 7 [] = .error .indexOutOfRange ∧
    Put 7 [] ≠ .error .illegalTrackLimits := claim10_put_empty_panics 7

set_option maxRecDepth 10000 in
/-- C7 counterexample: `Put` hands `first` and `last` to libdiscid through
`C.int` conversions, which wrap outside ±2^31.  For `first = 2^32 + 5`
with 3 offsets the claimed condition `first + numTracks - 1 > 99` holds,
yet the call succeeds: the copy loop breaks at once (`track > 99`) and
`discid_put` receives the wrapped track numbers 5 and 6. -/
theorem claim7_counterexample :
    Put 4294967301 [100, 10, 20] = .ok ⟨5, 6, (List.replicate 100 0).set 0 100⟩ ∧
    (4294967301 : Int) + (([100, 10, 20] : List Int).length : Int) - 2 > 99 ∧
    Put 4294967301 [100, 10, 20] ≠ .error .illegalTrackLimits := by
  refine ⟨by decide, by decide, by decide⟩

set_option maxRecDepth 10000 in
/-- C7 (amended): for `first` in the range where the `C.int` conversions
preserve the values (`first + len(offsets) ≤ 2^31`), direct assembly
`Put(first, offsets)` fails with the track-range error exactly when the
number of non-leadout offsets exceeds 99 or when `first + numTracks - 1 >
99`, and succeeds otherwise with last track `first + len(offsets) - 2`;
101 offsets fail, and `first = 82` with 19 tracks (implied last track 100)
fails.  Outside that range the conversions wrap and the failure condition
is false of the program (see the counterexample). -/
theorem claim7_put_track_range :
    (∀ (first : Int) (offs : List Int), 1 ≤ first → offs ≠ [] →
      first + offs.length ≤ 2147483648 →
      (Put first offs = .error .illegalTrackLimits ↔
        ((offs.length : Int) - 1 > 99 ∨ first + offs.length - 2 > 99)) ∧
      (¬((offs.length : Int) - 1 > 99 ∨ first + offs.length - 2 > 99) →
        ∃ t, Put first offs = .ok t ∧ t.firstTrack = first ∧
          t.lastTrack = first + offs.length - 2)) ∧
    Put 1 (List.replicate 101 0) = .error .illegalTrackLimits ∧
    Put 82 (List.replicate 20 0) = .error .illegalTrackLimits := by
  refine ⟨fun first offs h1 hne hb => ⟨Put_illegal_iff first offs h1 hne hb,
    fun hcond => ?_⟩, by decide, by decide⟩
  exact Put_ok_exists first offs h1 hne (by omega) (by omega)

theorem claim7_witness :
    ∃ t, Put 3 [500, 10, 20] = .ok t ∧ t.firstTrack = 3 ∧
      t.lastTrack = 3 + (([500, 10, 20] : List Int).length : Int) - 2 :=
  (claim7_put_track_range.1 3 [500, 10, 20] (by decide) (by decide)
    (by decide)).2 (by decide)

set_option maxRecDepth 10000 in
/-- C3: `FreedbId` is a deterministic function of the validated TOC,
computed by the digit-sum/total-seconds/track-count packing rendered as 8
lowercase hex digits; on the reference TOC it yields `"830abf0a"`. -/
theorem claim3_freedb_id :
    (Put 1 offsTest).map FreedbId = .ok "830abf0a" ∧
    (∀ t1 t2 : Toc, t1.firstTrack = t2.firstTrack → t1.lastTrack = t2.lastTrack →
      t1.offsets = t2.offsets → FreedbId t1 = FreedbId t2) := by
  refine ⟨by decide, fun t1 t2 h1 h2 h3 => ?_⟩
  cases t1
  cases t2
  cases h1
  cases h2
  cases h3
  rfl

theorem claim3_witness : FreedbId ⟨1, 2, [400, 10, 20]⟩ = FreedbId ⟨1, 2, [400, 10, 20]⟩ :=
  claim3_freedb_id.2 ⟨1, 2, [400, 10, 20]⟩ ⟨1, 2, [400, 10, 20]⟩ rfl rfl rfl

set_option maxRecDepth 40000 in
/-- C1 counterexample: applying the substitutions exactly as the claim
words them (`+`→`.`, `/`→`-`, `=`→`_`) to the base64 SHA-1 of the
canonical buffer of the claimed TOC yields `"Wn8eRBtfLDfM0qjYPdxrz.Zjs-U_"`,
not the 28-character identifier `"Wn8eRBtfLDfM0qjYPdxrz.Zjs_U-"` that the
claim (and the repository's `TestPut`) states `Id()` returns. -/
theorem claim1_counterexample :
    (Put 1 offsTest).map IdSpecSubst = .ok "Wn8eRBtfLDfM0qjYPdxrz.Zjs-U_" ∧
    (Put 1 offsTest).map IdSpecSubst ≠ .ok "Wn8eRBtfLDfM0qjYPdxrz.Zjs_U-" := by
  constructor
  · decide
  · decide

set_option maxRecDepth 40000 in
/-- C1 (amended): with the URL-safe substitution the repository's tests pin
down (`+`→`.`, `/`→`_`, `=`→`-`), `Id()` on the TOC assembled by
`Put(1, [206535, …])` is exactly `"Wn8eRBtfLDfM0qjYPdxrz.Zjs_U-"`; for
every TOC the identifier has 28 characters, and equal TOC content yields a
byte-identical identifier. -/
theorem claim1_musicbrainz_id :
    (Put 1 offsTest).map Id = .ok "Wn8eRBtfLDfM0qjYPdxrz.Zjs_U-" ∧
    (∀ t : Toc, (Id t).length = 28) ∧
    (∀ t1 t2 : Toc, t1.firstTrack = t2.firstTrack → t1.lastTrack = t2.lastTrack →
      t1.offsets = t2.offsets → Id t1 = Id t2) := by
  refine ⟨by decide, Id_length, fun t1 t2 h1 h2 h3 => ?_⟩
  cases t1
  cases t2
  cases h1
  cases h2
  cases h3
  rfl

theorem claim1_witness :
    (Id ⟨1, 1, [100, 7]⟩).length = 28 ∧ Id ⟨1, 1, [100, 7]⟩ = Id ⟨1, 1, [100, 7]⟩ :=
  ⟨claim1_musicbrainz_id.2.1 ⟨1, 1, [100, 7]⟩,
    claim1_musicbrainz_id.2.2 ⟨1, 1, [100, 7]⟩ ⟨1, 1, [100, 7]⟩ rfl rfl rfl⟩

theorem getD_take_drop (l : List Int) (a b j : Nat) (hj : j < b) (hlen : a + j < l.length) :
    ((l.drop a).take b).getD j 0 = l.getD (a + j) 0 := by
  rw [List.getD_eq_getElem _ _ (by simp only [List.length_take, List.length_drop]; omega),
    List.getD_eq_getElem _ _ hlen, List.getElem_take, List.getElem_drop]

/-- C8: on a validated disc, `Track(n)` panics with the out-of-bounds
signal exactly when `n < FirstTrackNum` or `n > LastTrackNum`, and
otherwise returns the view whose offset is the stored offset of track `n`
(the `n - firstTrack`-th entry of the per-track offsets) and whose sector
count is the next track's offset (the leadout for the last track) minus
its own. -/
theorem claim8_track_accessor (t : Toc) (n : Int)
    (h1 : 1 ≤ t.firstTrack) (h2 : t.firstTrack ≤ t.lastTrack) (h3 : t.lastTrack ≤ 99)
    (h4 : t.offsets.length = 100) :
    ((∃ e, TrackGet t n = .error e) ↔ (n < t.firstTrack ∨ n > t.lastTrack)) ∧
    (t.firstTrack ≤ n → n ≤ t.lastTrack →
      TrackGet t n = .ok ⟨n,
        (tocTrackOffsets t).getD (n - t.firstTrack).toNat 0,
        (if n < t.lastTrack then (tocTrackOffsets t).getD ((n - t.firstTrack).toNat + 1) 0
         else arrGet t.offsets 0) - (tocTrackOffsets t).getD (n - t.firstTrack).toNat 0,
        ""⟩) := by
  constructor
  · unfold TrackGet
    by_cases hc : n < t.firstTrack ∨ n > t.lastTrack
    · rw [if_pos hc]
      exact iff_of_true ⟨_, rfl⟩ hc
    · rw [if_neg hc]
      refine iff_of_false ?_ hc
      rintro ⟨e, he⟩
      cases he
  · intro hge hle
    unfold TrackGet
    rw [if_neg (by omega)]
    have hoff : (tocTrackOffsets t).getD (n - t.firstTrack).toNat 0 =
        arrGet t.offsets n.toNat := by
      unfold tocTrackOffsets arrGet
      rw [getD_take_drop _ _ _ _ (by omega) (by omega)]
      congr 1
      omega
    have hnext : n < t.lastTrack →
        (tocTrackOffsets t).getD ((n - t.firstTrack).toNat + 1) 0 =
        arrGet t.offsets (n.toNat + 1) := by
      intro hlt
      unfold tocTrackOffsets arrGet
      rw [getD_take_drop _ _ _ _ (by omega) (by omega)]
      congr 1
      omega
    unfold trackOffset trackLength
    by_cases hlt : n < t.lastTrack
    · rw [if_pos hlt, if_pos hlt, hoff, hnext hlt]
    · rw [if_neg hlt, if_neg hlt, hoff]

theorem claim8_witness :
    ((∃ e, TrackGet ⟨1, 2, [500, 10, 20] ++ List.replicate 97 0⟩ 0 = .error e) ↔
      ((0 : Int) < 1 ∨ (0 : Int) > 2)) ∧
    TrackGet ⟨1, 2, [500, 10, 20] ++ List.replicate 97 0⟩ 1 = .ok ⟨1,
      (tocTrackOffsets ⟨1, 2, [500, 10, 20] ++ List.replicate 97 0⟩).getD
        ((1 - 1 : Int)).toNat 0,
      (if (1 : Int) < 2 then (tocTrackOffsets ⟨1, 2, [500, 10, 20] ++ List.replicate 97 0⟩).getD
          (((1 - 1 : Int)).toNat + 1) 0
       else arrGet ([500, 10, 20] ++ List.replicate 97 0) 0) -
        (tocTrackOffsets ⟨1, 2, [500, 10, 20] ++ List.replicate 97 0⟩).getD
          ((1 - 1 : Int)).toNat 0,
      ""⟩ :=
  ⟨(claim8_track_accessor ⟨1, 2, [500, 10, 20] ++ List.replicate 97 0⟩ 0
      (by decide) (by decide) (by decide) (by decide)).1,
    (claim8_track_accessor ⟨1, 2, [500, 10, 20] ++ List.replicate 97 0⟩ 1
      (by decide) (by decide) (by decide) (by decide)).2 (by decide) (by decide)⟩

/-- C4: `Parse` fails with `TooManyOffsets` exactly when some token index
`j ≥ 2`, with all tokens up to `j` valid in-range integers, crosses the
incremental bounds `last + 2` (evaluated in Go's wrapping 64-bit int
arithmetic) or `99 + 2` — raised as soon as the boundary is crossed,
regardless of the remaining input (any suffix may follow, even malformed);
in particular `"1 2 242457 150 200 300"` fails with `TooManyOffsets`. -/
theorem claim4_too_many_offsets :
    Parse "1 2 242457 150 200 300" = .error .tooManyOffsets ∧
    (∀ rest : String,
      Parse ("1 2 242457 150 200 300" ++ " " ++ rest) = .error .tooManyOffsets) ∧
    (∀ s : String, Parse s = .error .tooManyOffsets ↔
      ∃ v1, atoi ((splitSpace s.data).getD 1 []) = .ok v1 ∧
        ∃ j, 2 ≤ j ∧ j < (splitSpace s.data).length ∧
          (atoiAll ((splitSpace s.data).take (j + 1))).isSome ∧
          ((j : Int) > wrap64 (v1 + 2) ∨ (j : Int) > 101)) := by
  refine ⟨by decide, fun rest => ?_, Parse_tooMany_iff⟩
  rw [Parse_tooMany_iff]
  have hdata : ("1 2 242457 150 200 300" ++ " " ++ rest).data =
      "1 2 242457 150 200 300".data ++ ' ' :: rest.data := by
    rw [String.data_append, String.data_append]
    rfl
  have hsplit : splitSpace ("1 2 242457 150 200 300" ++ " " ++ rest).data =
      splitSpace "1 2 242457 150 200 300".data ++ splitSpace rest.data := by
    rw [hdata, splitSpace_append]
  have hsix : splitSpace "1 2 242457 150 200 300".data =
      [['1'], ['2'], ['2', '4', '2', '4', '5', '7'], ['1', '5', '0'],
        ['2', '0', '0'], ['3', '0', '0']] := by decide
  refine ⟨2, ?_, 5, by omega, ?_, ?_, ?_⟩
  · rw [hsplit, hsix]
    simp only [List.cons_append, List.getD_cons_succ, List.getD_cons_zero]
    decide
  · rw [hsplit, hsix]
    simp only [List.length_append, List.length_cons]
    omega
  · rw [hsplit, hsix,
      List.take_append_of_le_length (by simp only [List.length_cons, List.length_nil]; omega)]
    decide
  · decide

theorem claim4_witness :
    Parse ("1 2 242457 150 200 300" ++ " " ++ "x y") = .error .tooManyOffsets :=
  claim4_too_many_offsets.2.1 "x y"

/-- C5 counterexample: the three-token input `"1 1 100"` — fewer than 4
tokens — does not fail with `InvalidTocString`: it fails with
`OffsetCountMismatch` instead, refuting "fails with `InvalidTocString`
when the input contains fewer than 4 tokens". -/
theorem claim5_counterexample :
    Parse "1 1 100" = .error (.offsetCountMismatch 0 1) ∧
    (∀ msg, Parse "1 1 100" ≠ .error (.invalidTocString msg)) := by
  have h : Parse "1 1 100" = .error (.offsetCountMismatch 0 1) := by decide
  refine ⟨h, fun msg hc => ?_⟩
  rw [h] at hc
  simp at hc

/-- C5 (amended): `Parse` fails with `InvalidTocString` when fewer than 3
tokens are present (Go's `i < 2`; a malformed token fails with the
conversion error first) or — among the structural checks — when the
parsed `first` or `last` is out of range (`first < 1`, `last < 1` or
`last > 99`); parsing `"1"` fails with `InvalidTocString`, while a 3-token
input with valid track numbers fails with `OffsetCountMismatch` instead. -/
theorem claim5_invalid_toc :
    Parse "1" = .error (.invalidTocString "1") ∧
    (∀ (s : String) (vs : List Int), atoiAll (splitSpace s.data) = some vs →
      (splitSpace s.data).length < 3 → Parse s = .error (.invalidTocString s)) ∧
    (∀ (s : String) (vs : List Int), atoiAll (splitSpace s.data) = some vs →
      noCross vs (splitSpace s.data).length → 3 ≤ (splitSpace s.data).length →
      (Parse s = .error (.invalidTocString s) ↔
        vs.getD 0 0 < 1 ∨ vs.getD 1 0 < 1 ∨ vs.getD 1 0 > 99)) := by
  refine ⟨by decide, fun s vs hall hlen => ?_, fun s vs hall hnc hlen => ?_⟩
  · rw [Parse_eval s vs hall (fun k hk h2k => absurd hk (by omega))]
    exact (parseFin_invalidToc_iff _ _ _).mpr (.inl (by omega))
  · rw [Parse_eval s vs hall hnc, parseFin_invalidToc_iff]
    unfold finalState
    dsimp only
    omega

theorem claim5_witness : Parse "5" = .error (.invalidTocString "5") :=
  claim5_invalid_toc.2.1 "5" [5] (by decide) (by decide)

theorem finalState_first (vs : List Int) : (finalState vs).first = vs.getD 0 0 := rfl

theorem finalState_last (vs : List Int) : (finalState vs).last = vs.getD 1 0 := rfl

theorem finalState_offsets (vs : List Int) :
    (finalState vs).offsets = writeSeq (List.replicate 100 0) 0 (vs.drop 2) := rfl

theorem parseFin_mismatch_iff (s : String) (n : Nat) (st : PState)
    (hno : ¬(n - 1 < 2 ∨ st.first < 1 ∨ st.last < 1 ∨ st.last > 99)) :
    (parseFin s n st = .error (.offsetCountMismatch (((n - 1 : Nat) : Int) - 2)
        (st.last - st.first + 1)) ↔
      ((n - 1 : Nat) : Int) - 2 < st.last - st.first + 1) := by
  rw [parseFin_structural s n st hno]
  by_cases hc : ((n - 1 : Nat) : Int) - 2 < st.last - st.first + 1
  · rw [if_pos hc]
    exact iff_of_true rfl hc
  · rw [if_neg hc]
    refine iff_of_false ?_ hc
    cases hg : goSlice st.offsets (st.last - st.first + 1 + 1) with
    | error e =>
      have := goSlice_err _ _ _ hg
      subst this
      simp
    | ok sl =>
      rcases Put_cases st.first sl with h | h | ⟨t, h⟩ <;> simp [h]

theorem parseFin_delegate (s : String) (n : Nat) (st : PState)
    (hno : ¬(n - 1 < 2 ∨ st.first < 1 ∨ st.last < 1 ∨ st.last > 99))
    (hcnt : ¬(((n - 1 : Nat) : Int) - 2 < st.last - st.first + 1))
    (hlen : st.offsets.length = 100)
    (hbound : st.last - st.first + 1 + 1 ≤ 100 ∧ 0 ≤ st.last - st.first + 1 + 1) :
    parseFin s n st = Put st.first (st.offsets.take (st.last - st.first + 1 + 1).toNat) := by
  rw [parseFin_structural s n st hno, if_neg hcnt]
  have hg : goSlice st.offsets (st.last - st.first + 1 + 1) =
      .ok (st.offsets.take (st.last - st.first + 1 + 1).toNat) := by
    unfold goSlice
    rw [if_neg (by rw [hlen]; omega)]
  rw [hg]

/-- C6 counterexample: for `"50 3 100"` the collected offset count (0) is
at least `last - first + 1 = -46` and no error is raised by the earlier
checks, yet parsing does not succeed by delegating to `Put`: the slice
`offsets[0:trackCount+1]` has a negative bound and Go panics. -/
theorem claim6_counterexample :
    Parse "50 3 100" = .error .sliceBounds ∧ (∀ t : Toc, Parse "50 3 100" ≠ .ok t) := by
  have h : Parse "50 3 100" = .error .sliceBounds := by decide
  refine ⟨h, fun t hc => ?_⟩
  rw [h] at hc
  cases hc

/-- C6 (amended): with every token parsed, no incremental bound crossed
and the structural checks passed, `Parse` fails with
`OffsetCountMismatch` exactly when the collected offset count (token
count − 3) is below the implied track count `last − first + 1`; when the
count suffices and additionally `first ≤ last + 1` (a nonnegative implied
track count — for `first > last + 1` the slice bound is negative and Go
panics, see the counterexample), parsing succeeds by delegating to `Put`
with the parsed `first` and the collected values truncated to
`trackCount + 1` entries (the leadout plus `trackCount` per-track
offsets); in particular `"1 2 242457 150"` fails with
`OffsetCountMismatch`. -/
theorem claim6_offset_count :
    Parse "1 2 242457 150" = .error (.offsetCountMismatch 1 2) ∧
    (∀ (s : String) (vs : List Int), atoiAll (splitSpace s.data) = some vs →
      noCross vs (splitSpace s.data).length → 3 ≤ (splitSpace s.data).length →
      1 ≤ vs.getD 0 0 → 1 ≤ vs.getD 1 0 → vs.getD 1 0 ≤ 99 →
      (Parse s = .error (.offsetCountMismatch (((splitSpace s.data).length : Int) - 3)
          (vs.getD 1 0 - vs.getD 0 0 + 1)) ↔
        ((splitSpace s.data).length : Int) - 3 < vs.getD 1 0 - vs.getD 0 0 + 1)) ∧
    (∀ (s : String) (vs : List Int), atoiAll (splitSpace s.data) = some vs →
      noCross vs (splitSpace s.data).length → 3 ≤ (splitSpace s.data).length →
      1 ≤ vs.getD 0 0 → 1 ≤ vs.getD 1 0 → vs.getD 1 0 ≤ 99 →
      ¬(((splitSpace s.data).length : Int) - 3 < vs.getD 1 0 - vs.getD 0 0 + 1) →
      vs.getD 0 0 ≤ vs.getD 1 0 + 1 →
      Parse s = Put (vs.getD 0 0)
        ((vs.drop 2).take (vs.getD 1 0 - vs.getD 0 0 + 2).toNat) ∧
      ∃ t, Parse s = .ok t) := by
  refine ⟨by decide, fun s vs hall hnc hlen h0 h1a h1b => ?_,
    fun s vs hall hnc hlen h0 h1a h1b hcnt hrange => ?_⟩
  · rw [Parse_eval s vs hall hnc]
    have hno : ¬((splitSpace s.data).length - 1 < 2 ∨ (finalState vs).first < 1 ∨
        (finalState vs).last < 1 ∨ (finalState vs).last > 99) := by
      simp only [finalState_first, finalState_last]
      omega
    have h2 := parseFin_mismatch_iff s (splitSpace s.data).length (finalState vs) hno
    rw [finalState_first, finalState_last,
      show (((splitSpace s.data).length - 1 : Nat) : Int) - 2 =
        ((splitSpace s.data).length : Int) - 3 by omega] at h2
    exact h2
  · have hnlen : vs.length = (splitSpace s.data).length := atoiAll_length hall
    have hn102 : (splitSpace s.data).length ≤ 102 := by
      by_contra hgt
      have := hnc ((splitSpace s.data).length - 1) (by omega) (by omega)
      omega
    have hdlen : (vs.drop 2).length = (splitSpace s.data).length - 2 := by
      simp [List.length_drop, hnlen]
    have hws : writeSeq (List.replicate 100 0) 0 (vs.drop 2) =
        vs.drop 2 ++ List.replicate (100 - ((splitSpace s.data).length - 2)) 0 := by
      rw [writeSeq_eq _ _ 0 (by simp only [List.length_replicate]; omega)]
      rw [List.take_zero, List.nil_append, Nat.zero_add, List.drop_replicate, hdlen]
    have harith2 : vs.getD 1 0 - vs.getD 0 0 + 1 + 1 = vs.getD 1 0 - vs.getD 0 0 + 2 := by
      ring
    have hslice : goSlice (writeSeq (List.replicate 100 0) 0 (vs.drop 2))
        (vs.getD 1 0 - vs.getD 0 0 + 1 + 1) =
        .ok ((vs.drop 2).take (vs.getD 1 0 - vs.getD 0 0 + 2).toNat) := by
      unfold goSlice
      rw [if_neg (by rw [writeSeq_length]; simp only [List.length_replicate]; omega)]
      rw [harith2, hws,
        List.take_append_of_le_length (by rw [hdlen]; omega)]
    have hparse : Parse s = Put (vs.getD 0 0)
        ((vs.drop 2).take (vs.getD 1 0 - vs.getD 0 0 + 2).toNat) := by
      rw [Parse_eval s vs hall hnc,
        parseFin_delegate s _ (finalState vs)
          (by simp only [finalState_first, finalState_last]; omega)
          (by simp only [finalState_first, finalState_last]; omega)
          (by rw [finalState_offsets, writeSeq_length]; simp only [List.length_replicate])
          (by simp only [finalState_first, finalState_last]; omega)]
      rw [finalState_first, finalState_last, finalState_offsets, harith2, hws,
        List.take_append_of_le_length (by rw [hdlen]; omega)]
    refine ⟨hparse, ?_⟩
    have htlen : ((vs.drop 2).take (vs.getD 1 0 - vs.getD 0 0 + 2).toNat).length =
        (vs.getD 1 0 - vs.getD 0 0 + 2).toNat := by
      rw [List.length_take, hdlen]
      omega
    obtain ⟨t, ht, _, _⟩ := Put_ok_exists (vs.getD 0 0)
      ((vs.drop 2).take (vs.getD 1 0 - vs.getD 0 0 + 2).toNat) h0
      (by intro hnil; rw [hnil] at htlen; simp only [List.length_nil] at htlen; omega)
      (by rw [htlen]; omega) (by rw [htlen]; omega)
    exact ⟨t, by rw [hparse, ht]⟩

theorem claim6_witness :
    ∃ t, Parse "1 2 300 10 20" = .ok t :=
  ((claim6_offset_count.2.2 "1 2 300 10 20" [1, 2, 300, 10, 20] (by decide) (by decide)
    (by decide) (by decide) (by decide) (by decide) (by decide) (by decide))).2

theorem map_cint_cast : ∀ (offs : List Nat), (∀ o ∈ offs, (o : Int) < 2147483648) →
    (offs.map (fun n : Nat => (n : Int))).map cint = offs.map (fun n : Nat => (n : Int))
  | [], _ => rfl
  | o :: rest, h => by
    simp only [List.map_cons]
    rw [cint_eq_self (o : Int) (by omega) (by have := h o (by simp); omega),
      map_cint_cast rest (fun m hm => h m (by simp [hm]))]

set_option maxRecDepth 10000 in
/-- C2 counterexample: `"1 1 2147483648 150"` is a well-formed canonical
TOC string (single-space separated decimal integers, first 1, last 1, a
leadout and one track offset), but the leadout does not fit in the C int
the TOC array stores: `Put` writes `C.int(2147483648) = -2147483648`, so
parsing succeeds yet `TocString` re-renders to a different string. -/
theorem claim2_counterexample :
    (Parse "1 1 2147483648 150").map TocString = .ok "1 1 -2147483648 150" ∧
    ("1 1 -2147483648 150" : String) ≠ "1 1 2147483648 150" :=
  ⟨by decide, by decide⟩

/-- C2 (amended): for every well-formed canonical TOC string — single-space
separated canonical decimal renderings of `first`, `last`, the leadout and
exactly `last - first + 1` track offsets, with `1 ≤ first ≤ last ≤ 99` and
every rendered leadout and offset below 2^31 (value-preserving under the
`C.int` conversions into the TOC array) — `Parse` succeeds and `TocString`
of the resulting disc reproduces the input exactly; for larger values the
conversion wraps and the round trip fails (see the counterexample). -/
theorem claim2_roundtrip (first last leadout : Nat) (offs : List Nat)
    (h1 : 1 ≤ first) (h2 : first ≤ last) (h3 : last ≤ 99)
    (hlen : offs.length = last - first + 1)
    (hlo : (leadout : Int) < 2147483648)
    (hoffs : ∀ o ∈ offs, (o : Int) < 2147483648) :
    ∃ t, Parse (renderToc first last leadout offs) = .ok t ∧
      TocString t = renderToc first last leadout offs := by
  rw [Parse_renderToc_put first last leadout offs h1 h2 h3 hlen (by omega)
      (fun n hn => by have := hoffs n hn; omega),
    Put_ok (first : Int) (leadout : Int) (offs.map (fun n : Nat => (n : Int))) (by omega)
      (by simp only [List.length_map]; omega)
      (by simp only [List.length_map]; omega)]
  refine ⟨_, rfl, ?_⟩
  rw [map_cint_cast offs hoffs,
    cint_eq_self (leadout : Int) (by omega) (by omega),
    show ((first : Int)).toNat = first from Int.toNat_natCast first,
    show ((offs.map (fun n : Nat => (n : Int))).length : Int) = (offs.length : Int) by
      simp only [List.length_map]]
  exact TocString_of_put first last leadout offs h1 h2 h3 hlen

theorem claim2_witness :
    ∃ t, Parse (renderToc 1 1 44942 [150]) = .ok t ∧
      TocString t = renderToc 1 1 44942 [150] :=
  claim2_roundtrip 1 1 44942 [150] (by decide) (by decide) (by decide) (by decide)
    (by decide) (by decide)

/-- C9 counterexample: `"1 1 44942\t150"` is a well-formed TOC whose
integer tokens are separated by whitespace (two spaces and one tab), yet
`Parse` does not succeed: the split is on single spaces only, so the tab
stays inside the final token and integer conversion fails. -/
theorem claim9_counterexample :
    Parse "1 1 44942\t150" = .error (.malformedNumber "44942\t150") ∧
    (∀ t : Toc, Parse "1 1 44942\t150" ≠ .ok t) := by
  have h : Parse "1 1 44942\t150" = .error (.malformedNumber "44942\t150") := by decide
  refine ⟨h, fun t hc => ?_⟩
  rw [h] at hc
  cases hc

/-- C9 (amended): `Parse` splits its input on single space characters
only (Go `strings.Split(toc, " ")`): for every well-formed TOC whose
integer tokens — each within `strconv.Atoi`'s 64-bit range — are separated
by exactly one space, parsing succeeds; tokens containing any other
whitespace are handed whole to integer conversion (and fail as malformed
numbers, see the counterexample). -/
theorem claim9_single_space (first last leadout : Nat) (offs : List Nat)
    (h1 : 1 ≤ first) (h2 : first ≤ last) (h3 : last ≤ 99)
    (hlen : offs.length = last - first + 1)
    (hlo : (leadout : Int) ≤ 9223372036854775807)
    (hoffs : ∀ o ∈ offs, (o : Int) ≤ 9223372036854775807) :
    ∃ t, Parse (renderToc first last leadout offs) = .ok t := by
  rw [Parse_renderToc_put first last leadout offs h1 h2 h3 hlen hlo hoffs]
  obtain ⟨t, ht, -, -⟩ := Put_ok_exists (first : Int)
    ((leadout : Int) :: offs.map (fun n : Nat => (n : Int))) (by omega) (by simp)
    (by simp only [List.length_cons, List.length_map]; push_cast; omega)
    (by simp only [List.length_cons, List.length_map]; push_cast; omega)
  exact ⟨t, ht⟩

theorem claim9_witness : ∃ t, Parse (renderToc 1 2 1000 [10, 20]) = .ok t :=
  claim9_single_space 1 2 1000 [10, 20] (by decide) (by decide) (by decide) (by decide)
    (by decide) (by decide)

end discid
